import Mathlib

/-!
Verification of the batch upscaling application (src/App.tsx).

The data model and the operations below are shallow embeddings of the
React component `App`: the `files` state array of `ImageFile` records,
the handlers `handleFiles`, `updateGlobalSettings`, `updateFileSettings`,
`removeFile`, the asynchronous dimension probe spawned by `handleFiles`,
the sequential `processBatch` loop, and the `downloadAllZip` exporter.
External effects (id generation by `Math.random`, the result of
`processImage`, byte fetches) are modelled as oracle functions supplied
as parameters.
-/

namespace Upscaler

/-- Lifecycle states of an item (the `ProcessingStatus` enum). -/
inductive ProcessingStatus where
  | IDLE
  | PROCESSING
  | COMPLETED
  | ERROR
deriving DecidableEq, Repr

/-- Per-item settings (the `ImageSettings` record): upscale factor,
target DPI, style preservation and batch-participation flags. -/
structure ImageSettings where
  upscaleFactor : Nat
  dpi : Nat
  preserveStyle : Bool
  enabled : Bool
deriving DecidableEq, Repr

/-- A partial settings update, as passed to `updateGlobalSettings` /
`updateFileSettings` (`Partial<ImageSettings>` in the source): each
field is optionally present. -/
structure PartialSettings where
  upscaleFactor : Option Nat := none
  dpi : Option Nat := none
  preserveStyle : Option Bool := none
  enabled : Option Bool := none
deriving DecidableEq, Repr

/-- JavaScript object spread `{ ...s, ...p }` for a partial update:
fields present in `p` override, absent fields keep the value of `s`. -/
def mergeSettings (s : ImageSettings) (p : PartialSettings) : ImageSettings :=
  { upscaleFactor := p.upscaleFactor.getD s.upscaleFactor
    dpi := p.dpi.getD s.dpi
    preserveStyle := p.preserveStyle.getD s.preserveStyle
    enabled := p.enabled.getD s.enabled }

/-- An incoming browser `File`: name, MIME type, and the object URL the
app would create for its preview. -/
structure RawFile where
  name : String
  type : String
  previewUrl : String
deriving DecidableEq, Repr

/-- One submitted image under batch management (the `ImageFile` record). -/
structure ImageFile where
  id : String
  file : RawFile
  originalName : String
  previewUrl : String
  status : ProcessingStatus
  settings : ImageSettings
  width : Nat
  height : Nat
  processedUrl : Option String := none
  error : Option String := none
  analysis : Option String := none
deriving DecidableEq, Repr

/-- The component state relevant to the orchestration logic: the file
list and the shared global settings. -/
structure AppState where
  files : List ImageFile
  globalSettings : ImageSettings
deriving DecidableEq, Repr

/-- `DEFAULT_SETTINGS` from src/App.tsx (factor X4, 300 DPI). -/
def DEFAULT_SETTINGS : ImageSettings :=
  { upscaleFactor := 4, dpi := 300, preserveStyle := true, enabled := true }

/-- The MIME filter in `handleFiles`: `file.type.startsWith('image/')`,
expressed as a prefix test on the underlying character list. -/
def isImageFile (r : RawFile) : Bool :=
  decide (r.type.data.take "image/".data.length = "image/".data)

/-- The new `ImageFile` record built in `handleFiles` for one accepted
file: fresh id from the generator, IDLE status, a copy of the global
settings, zero dimensions until the probe resolves. -/
def mkItem (gid : String) (gs : ImageSettings) (r : RawFile) : ImageFile :=
  { id := gid
    file := r
    originalName := r.name
    previewUrl := r.previewUrl
    status := ProcessingStatus.IDLE
    settings := gs
    width := 0
    height := 0 }

/-- The items `handleFiles` would append: the valid (image-typed) files,
each paired with an id drawn from the generator oracle `gen` (one
`Math.random()` draw per file). -/
def newItems (gen : Nat → String) (gs : ImageSettings) (raws : List RawFile) :
    List ImageFile :=
  ((raws.filter isImageFile).enum).map (fun p => mkItem (gen p.1) gs p.2)

/-- `handleFiles` (src/App.tsx lines 33–64): filter incoming files to
image MIME types; if the existing count plus the incoming valid count
exceeds `maxFiles` (the `MAX_FILES` constant, imported from
src/constants.ts which is not part of src/, hence a parameter), reject
the whole set and leave the state untouched; otherwise append all new
items. Id generation (`Math.random().toString(36).substr(2, 9)`) is
modelled by the oracle `gen`. -/
def handleFiles (maxFiles : Nat) (gen : Nat → String) (raws : List RawFile)
    (st : AppState) : AppState :=
  let validFiles := raws.filter isImageFile
  if st.files.length + validFiles.length > maxFiles then st
  else { st with files := st.files ++ newItems gen st.globalSettings raws }

/-- `updateGlobalSettings` (src/App.tsx lines 72–83): merge the partial
update into the global settings and into the settings of every IDLE
file; files in any other status are untouched. -/
def updateGlobalSettings (p : PartialSettings) (st : AppState) : AppState :=
  { globalSettings := mergeSettings st.globalSettings p
    files := st.files.map (fun f =>
      if f.status = ProcessingStatus.IDLE
      then { f with settings := mergeSettings f.settings p }
      else f) }

/-- `updateFileSettings` (src/App.tsx lines 85–87): merge a partial
update into the settings of the file with the given id. -/
def updateFileSettings (i : String) (p : PartialSettings) (st : AppState) :
    AppState :=
  { st with files := st.files.map (fun f =>
      if f.id = i then { f with settings := mergeSettings f.settings p } else f) }

/-- `removeFile` (src/App.tsx lines 93–95). -/
def removeFile (i : String) (st : AppState) : AppState :=
  { st with files := st.files.filter (fun f => f.id ≠ i) }

/-- Resolution of the asynchronous dimension probe spawned in
`handleFiles` (src/App.tsx lines 54–61): `img.onload` applies the
decoded width/height to the file with the matching id. -/
def applyDimensions (fs : List ImageFile) (i : String) (w h : Nat) :
    List ImageFile :=
  fs.map (fun f => if f.id = i then { f with width := w, height := h } else f)

/-- The eligibility filter of `processBatch` (src/App.tsx line 101):
status is IDLE or ERROR. -/
def eligible (f : ImageFile) : Bool :=
  f.status = ProcessingStatus.IDLE || f.status = ProcessingStatus.ERROR

/-- The PROCESSING transition (src/App.tsx line 105). -/
def setProcessing (fs : List ImageFile) (i : String) : List ImageFile :=
  fs.map (fun f =>
    if f.id = i then { f with status := ProcessingStatus.PROCESSING } else f)

/-- The COMPLETED transition with the output attached
(src/App.tsx lines 112–116). -/
def setCompleted (fs : List ImageFile) (i : String) (url : String) :
    List ImageFile :=
  fs.map (fun f =>
    if f.id = i
    then { f with status := ProcessingStatus.COMPLETED, processedUrl := some url }
    else f)

/-- The ERROR transition with the generic message
(src/App.tsx lines 119–123). -/
def setError (fs : List ImageFile) (i : String) : List ImageFile :=
  fs.map (fun f =>
    if f.id = i
    then { f with status := ProcessingStatus.ERROR, error := some "Processing failed" }
    else f)

/-- Apply the outcome of `await processImage` for the item with id `i`:
`some url` is the resolved result URL, `none` a thrown exception. -/
def applyOutcome (fs : List ImageFile) (i : String) (outcome : Option String) :
    List ImageFile :=
  match outcome with
  | some url => setCompleted fs i url
  | none => setError fs i

/-- The body of the `for` loop of `processBatch` (src/App.tsx
lines 103–125), iterated over the snapshot list of files to process:
mark PROCESSING, then apply the outcome delivered by the oracle `res`
(keyed by item id). -/
def processBatchLoop (toProcess : List ImageFile) (res : String → Option String)
    (fs : List ImageFile) : List ImageFile :=
  match toProcess with
  | [] => fs
  | file :: rest =>
      processBatchLoop rest res
        (applyOutcome (setProcessing fs file.id) file.id (res file.id))

/-- `processBatch` (src/App.tsx lines 97–128): select the files whose
status is IDLE or ERROR, then run the sequential loop over them. -/
def processBatch (res : String → Option String) (fs : List ImageFile) :
    List ImageFile :=
  processBatchLoop (fs.filter eligible) res fs

/-- The sequence of intermediate file-list states produced by the
`setFiles` calls inside the `processBatch` loop: for each processed
item, first the state with it marked PROCESSING, then the state with
its outcome applied. -/
def batchTraceLoop (toProcess : List ImageFile) (res : String → Option String)
    (fs : List ImageFile) : List (List ImageFile) :=
  match toProcess with
  | [] => []
  | file :: rest =>
      let fs1 := setProcessing fs file.id
      let fs2 := applyOutcome fs1 file.id (res file.id)
      fs1 :: fs2 :: batchTraceLoop rest res fs2

/-- All intermediate states of a `processBatch` run started from `fs`. -/
def batchTrace (res : String → Option String) (fs : List ImageFile) :
    List (List ImageFile) :=
  batchTraceLoop (fs.filter eligible) res fs

/-- The filename derivation `originalName.replace(/\.[^/.]+$/, "")`
(src/App.tsx line 142): strip a trailing extension — a final dot
followed by one or more characters none of which is a dot or a slash. -/
def stripExt (s : String) : String :=
  let rev := s.data.reverse
  let extRev := rev.takeWhile (fun c => c ≠ '.' && c ≠ '/')
  match rev.drop extRev.length with
  | '.' :: restRev => if extRev.isEmpty then s else String.mk restRev.reverse
  | _ => s

/-- The zip bundle produced by `downloadAllZip`: the dated archive name
and the ordered (entry name, bytes) pairs; bytes are opaque. -/
structure Bundle where
  name : String
  entries : List (String × String)
deriving DecidableEq, Repr

/-- The selection `files.filter(f => f.status === COMPLETED && f.processedUrl)`
of src/App.tsx line 131. -/
def completedFiles (fs : List ImageFile) : List ImageFile :=
  fs.filter (fun f =>
    f.status = ProcessingStatus.COMPLETED && f.processedUrl.isSome)

/-- The `for` loop of `downloadAllZip` (src/App.tsx lines 139–145):
fetch each completed file's output bytes and collect the zip entries
`<stem>_UPSCALED.png`; a failed fetch throws, aborting the whole
construction (`none`). The oracle `fetchBytes` maps a URL to its bytes,
or `none` for a rejected fetch. -/
def zipEntries (fetchBytes : String → Option String) :
    List ImageFile → Option (List (String × String))
  | [] => some []
  | f :: rest =>
      match f.processedUrl with
      | some url =>
          match fetchBytes url with
          | some bytes =>
              (zipEntries fetchBytes rest).map
                (fun es => (stripExt f.originalName ++ "_UPSCALED.png", bytes) :: es)
          | none => none
      | none => zipEntries fetchBytes rest

/-- `downloadAllZip` (src/App.tsx lines 130–164): select the completed
files; if none, return without a bundle; otherwise build the zip
entries, producing the dated bundle on success and no bundle when any
fetch fails (the `catch` branch only alerts). The component state is
returned alongside: the handler never calls `setFiles`. -/
def downloadAllZip (fetchBytes : String → Option String) (date : String)
    (st : AppState) : Option Bundle × AppState :=
  let completed := completedFiles st.files
  if completed.length = 0 then (none, st)
  else
    match zipEntries fetchBytes completed with
    | some es =>
        (some { name := "UltraArt_Batch_" ++ date ++ ".zip", entries := es }, st)
    | none => (none, st)

/-! ### The resampling pipeline

`processImage` lives in src/services/imageProcessor.ts, which is not
part of src/; the definitions below model it from the spec. -/

/-- A decoded pixel raster: dimensions and a pixel lookup. -/
structure Raster where
  width : Nat
  height : Nat
  pixel : Nat → Nat → Nat

/-- Failure of the resampling pipeline on unreadable or zero-dimension
sources. -/
inductive DecodeError where
  | decodeError
deriving DecidableEq, Repr

/-- Modelled from the spec: the Resampler of src/services/imageProcessor.ts
(not in src/). "Given a decoded pixel raster, an upscale factor ∈ {1, 2, 4, 8},
and a style-preservation flag, produce a new raster with
width = source_width × factor and height = source_height × factor";
"Factor = 1 is an identity pass-through (no resampling)"; "source
dimensions of zero … fail with a DecodeError". The interpolation kernel
(selected by `preserveStyle`) does not affect dimensions and is modelled
as nearest-source sampling. -/
def resample (r : Raster) (factor : Nat) (preserveStyle : Bool) :
    Except DecodeError Raster :=
  if r.width = 0 ∨ r.height = 0 then Except.error DecodeError.decodeError
  else if factor = 1 then Except.ok r
  else
    Except.ok
      { width := r.width * factor
        height := r.height * factor
        pixel := fun x y =>
          if preserveStyle then r.pixel (x / factor) (y / factor)
          else r.pixel (x / factor) (y / factor) }

/-! ### Small-step execution model

`processBatch` suspends at each `await processImage(...)`; while an item
is in flight the other handlers can run. A configuration pairs the
component state with the continuation of an in-flight batch run: the
remaining snapshot items, whose head is the item currently awaited.
`isProcessingBatch` guards batch re-entry, so a run can start only when
no continuation is pending. -/
structure Config extends AppState where
  pending : Option (List ImageFile)
deriving DecidableEq, Repr

/-- Starting a batch run (src/App.tsx lines 97–105): snapshot the
eligible files; if there are none the run ends at once, otherwise the
first is marked PROCESSING and awaited. -/
def startBatchStep (cfg : Config) : Config :=
  match cfg.files.filter eligible with
  | [] => { cfg with pending := none }
  | f :: rest =>
      { cfg with files := setProcessing cfg.files f.id, pending := some (f :: rest) }

/-- Resumption after `await processImage` for the currently awaited item
`f` (src/App.tsx lines 107–125): apply its outcome, then either mark
the next snapshot item PROCESSING and await it, or finish the run. -/
def resumeStep (cfg : Config) (f : ImageFile) (rest : List ImageFile)
    (outcome : Option String) : Config :=
  let files1 := applyOutcome cfg.files f.id outcome
  match rest with
  | [] => { cfg with files := files1, pending := none }
  | g :: _ =>
      { cfg with files := setProcessing files1 g.id, pending := some rest }

/-- One step of the application: a user-initiated handler (allowed at any
suspension point), a probe resolution, or a batch-run step. Submission
requires freshly generated ids (the spec's identifier-uniqueness
assumption; the generator's failure to guarantee it is treated
separately), and removal is offered only for items that are not
PROCESSING (the remove button is disabled while processing,
src/App.tsx ImageCard). -/
inductive Step (maxFiles : Nat) : Config → Config → Prop where
  | submit (cfg : Config) (gen : Nat → String) (raws : List RawFile)
      (hfresh : ((cfg.files ++ newItems gen cfg.globalSettings raws).map
        (fun f => f.id)).Nodup) :
      Step maxFiles cfg
        { cfg with toAppState := handleFiles maxFiles gen raws cfg.toAppState }
  | setGlobal (cfg : Config) (p : PartialSettings) :
      Step maxFiles cfg
        { cfg with toAppState := updateGlobalSettings p cfg.toAppState }
  | setItem (cfg : Config) (i : String) (p : PartialSettings) :
      Step maxFiles cfg
        { cfg with toAppState := updateFileSettings i p cfg.toAppState }
  | remove (cfg : Config) (i : String)
      (hnp : ∀ f ∈ cfg.files, f.id = i → f.status ≠ ProcessingStatus.PROCESSING) :
      Step maxFiles cfg
        { cfg with toAppState := removeFile i cfg.toAppState }
  | probe (cfg : Config) (i : String) (w h : Nat) :
      Step maxFiles cfg { cfg with files := applyDimensions cfg.files i w h }
  | start (cfg : Config) (h : cfg.pending = none) :
      Step maxFiles cfg (startBatchStep cfg)
  | resume (cfg : Config) (f : ImageFile) (rest : List ImageFile)
      (outcome : Option String) (h : cfg.pending = some (f :: rest)) :
      Step maxFiles cfg (resumeStep cfg f rest outcome)

/-- The initial configuration: empty file list, default settings, no
batch in flight. -/
def initConfig : Config :=
  { files := [], globalSettings := DEFAULT_SETTINGS, pending := none }

/-- Reachable configurations: any interleaving of steps from the initial
configuration. -/
def Reach (maxFiles : Nat) (cfg : Config) : Prop :=
  Relation.ReflTransGen (Step maxFiles) initConfig cfg

/-! ### Helper definitions and lemmas -/

/-- The generic shape of every `setFiles` update: replace the items with
the given id by an updated copy. -/
def updateById (fs : List ImageFile) (i : String) (u : ImageFile → ImageFile) :
    List ImageFile :=
  fs.map (fun f => if f.id = i then u f else f)

/-- The net per-item effect of one loop iteration's outcome. -/
def outcomeUpdate (o : Option String) (f : ImageFile) : ImageFile :=
  match o with
  | some url =>
      { f with status := ProcessingStatus.COMPLETED, processedUrl := some url }
  | none =>
      { f with status := ProcessingStatus.ERROR, error := some "Processing failed" }

theorem setProcessing_eq (fs : List ImageFile) (i : String) :
    setProcessing fs i
      = updateById fs i (fun f => { f with status := ProcessingStatus.PROCESSING }) :=
  rfl

theorem applyOutcome_eq (fs : List ImageFile) (i : String) (o : Option String) :
    applyOutcome fs i o = updateById fs i (outcomeUpdate o) := by
  cases o <;> rfl

theorem applyDimensions_eq (fs : List ImageFile) (i : String) (w h : Nat) :
    applyDimensions fs i w h
      = updateById fs i (fun f => { f with width := w, height := h }) :=
  rfl

theorem outcomeUpdate_id (o : Option String) (f : ImageFile) :
    (outcomeUpdate o f).id = f.id := by
  cases o <;> rfl

theorem outcomeUpdate_setProcessing (o : Option String) (f : ImageFile) :
    outcomeUpdate o { f with status := ProcessingStatus.PROCESSING }
      = outcomeUpdate o f := by
  cases o <;> rfl

theorem updateById_map_id {u : ImageFile → ImageFile}
    (hu : ∀ f, (u f).id = f.id) (fs : List ImageFile) (i : String) :
    (updateById fs i u).map (fun f => f.id) = fs.map (fun f => f.id) := by
  unfold updateById
  rw [List.map_map]
  apply List.map_congr_left
  intro a _
  by_cases h : a.id = i <;> simp [Function.comp, h, hu]

theorem updateById_updateById {u v : ImageFile → ImageFile}
    (hu : ∀ f, (u f).id = f.id) (fs : List ImageFile) (i : String) :
    updateById (updateById fs i u) i v = updateById fs i (fun f => v (u f)) := by
  unfold updateById
  rw [List.map_map]
  apply List.map_congr_left
  intro a _
  by_cases h : a.id = i <;> simp [Function.comp, h, hu]

theorem updateById_not_mem {fs : List ImageFile} {i : String}
    (h : ∀ f ∈ fs, f.id ≠ i) (u : ImageFile → ImageFile) :
    updateById fs i u = fs := by
  unfold updateById
  have : fs.map (fun f => if f.id = i then u f else f) = fs.map id :=
    List.map_congr_left (by intro a ha; simp [h a ha])
  simpa using this

/-- One loop iteration's two `setFiles` calls collapse to a single
by-id outcome update. -/
theorem setProcessing_then_outcome (fs : List ImageFile) (i : String)
    (o : Option String) :
    applyOutcome (setProcessing fs i) i o = updateById fs i (outcomeUpdate o) := by
  rw [setProcessing_eq, applyOutcome_eq,
    updateById_updateById
      (u := fun f => { f with status := ProcessingStatus.PROCESSING })
      (v := outcomeUpdate o) (fun f => rfl) fs i]
  unfold updateById
  apply List.map_congr_left
  intro a _
  by_cases h : a.id = i
  · rw [if_pos h, if_pos h]
    exact outcomeUpdate_setProcessing o a
  · rw [if_neg h, if_neg h]

/-- The cumulative effect of the batch loop on one item: items whose id
was selected receive their outcome, the rest are untouched. -/
def runUpdate (sel : List String) (res : String → Option String)
    (f : ImageFile) : ImageFile :=
  if f.id ∈ sel then outcomeUpdate (res f.id) f else f

theorem processBatchLoop_eq (res : String → Option String) :
    ∀ (toProcess fs : List ImageFile),
      ((toProcess.map fun f => f.id).Nodup) →
      processBatchLoop toProcess res fs
        = fs.map (runUpdate (toProcess.map fun f => f.id) res) := by
  intro toProcess
  induction toProcess with
  | nil =>
      intro fs _
      have h1 : List.map (runUpdate [] res) fs = List.map id fs :=
        List.map_congr_left (fun a _ => by simp [runUpdate])
      simp [processBatchLoop, h1]
  | cons file rest ih =>
      intro fs h
      simp only [List.map_cons, List.nodup_cons] at h
      obtain ⟨hhead, hrest⟩ := h
      show processBatchLoop rest res
        (applyOutcome (setProcessing fs file.id) file.id (res file.id)) = _
      rw [setProcessing_then_outcome, ih _ hrest]
      unfold updateById
      rw [List.map_map]
      apply List.map_congr_left
      intro a _
      show runUpdate (List.map (fun f => f.id) rest) res
          (if a.id = file.id then outcomeUpdate (res file.id) a else a)
        = runUpdate (file.id :: List.map (fun f => f.id) rest) res a
      by_cases hid : a.id = file.id
      · rw [if_pos hid]
        unfold runUpdate
        rw [outcomeUpdate_id, hid, if_neg hhead, if_pos (List.mem_cons_self _ _)]
      · rw [if_neg hid]
        unfold runUpdate
        by_cases hm : a.id ∈ List.map (fun f => f.id) rest
        · rw [if_pos hm, if_pos (List.mem_cons_of_mem _ hm)]
        · rw [if_neg hm,
            if_neg (by rw [List.mem_cons]; rintro (h | h); exacts [hid h, hm h])]

theorem filter_eligible_ids_nodup {fs : List ImageFile}
    (hnd : (fs.map fun f => f.id).Nodup) :
    ((fs.filter eligible).map fun f => f.id).Nodup :=
  ((List.filter_sublist fs).map (fun f => f.id)).nodup hnd

theorem mem_filter_eligible_ids {fs : List ImageFile} {a : ImageFile}
    (hnd : (fs.map fun f => f.id).Nodup) (ha : a ∈ fs) :
    (a.id ∈ (fs.filter eligible).map fun f => f.id) ↔ eligible a = true := by
  constructor
  · intro h
    obtain ⟨g, hg, hgid⟩ := List.mem_map.mp h
    obtain ⟨hgfs, hge⟩ := List.mem_filter.mp hg
    have : g = a := List.inj_on_of_nodup_map hnd hgfs ha hgid
    exact this ▸ hge
  · intro he
    exact List.mem_map.mpr ⟨a, List.mem_filter.mpr ⟨ha, he⟩, rfl⟩

/-- Closed form of a full `processBatch` run over a duplicate-free file
list: every eligible item receives its outcome, every other item is
untouched. -/
theorem processBatch_eq (res : String → Option String) (fs : List ImageFile)
    (hnd : (fs.map fun f => f.id).Nodup) :
    processBatch res fs
      = fs.map (fun f =>
          if eligible f then outcomeUpdate (res f.id) f else f) := by
  unfold processBatch
  rw [processBatchLoop_eq _ _ _ (filter_eligible_ids_nodup hnd)]
  apply List.map_congr_left
  intro a ha
  unfold runUpdate
  by_cases he : eligible a = true
  · rw [if_pos ((mem_filter_eligible_ids hnd ha).mpr he), if_pos he]
  · rw [if_neg (fun hm => he ((mem_filter_eligible_ids hnd ha).mp hm)),
      if_neg he]

theorem processBatch_ids (res : String → Option String) (fs : List ImageFile)
    (hnd : (fs.map fun f => f.id).Nodup) :
    (processBatch res fs).map (fun f => f.id) = fs.map (fun f => f.id) := by
  rw [processBatch_eq res fs hnd, List.map_map]
  apply List.map_congr_left
  intro a _
  by_cases he : eligible a = true <;>
    simp [Function.comp, he, outcomeUpdate_id]

/-- Sample inputs for the witness theorems. -/
def rawPngA : RawFile := { name := "a.png", type := "image/png", previewUrl := "blob:a" }

def rawPngB : RawFile := { name := "b.png", type := "image/png", previewUrl := "blob:b" }

def itemA : ImageFile := mkItem "idA" DEFAULT_SETTINGS rawPngA

def itemB : ImageFile := mkItem "idB" DEFAULT_SETTINGS rawPngB

theorem countP_congr_mem {α : Type} {l : List α} {p q : α → Bool}
    (h : ∀ a ∈ l, p a = q a) : l.countP p = l.countP q := by
  induction l with
  | nil => rfl
  | cons a t ih =>
      rw [List.countP_cons, List.countP_cons, h a (List.mem_cons_self a t),
        ih (fun x hx => h x (List.mem_cons_of_mem a hx))]

theorem countP_id_eq_one {fs : List ImageFile}
    (hnd : (fs.map fun f => f.id).Nodup) {b : ImageFile} (hb : b ∈ fs) :
    fs.countP (fun f => decide (f.id = b.id)) = 1 := by
  induction fs with
  | nil => cases hb
  | cons f rest ih =>
      simp only [List.map_cons, List.nodup_cons] at hnd
      obtain ⟨hni, hrest⟩ := hnd
      rcases List.mem_cons.mp hb with hfb | hmem
      · subst hfb
        rw [List.countP_cons]
        have h0 : rest.countP (fun x => decide (x.id = b.id)) = 0 :=
          List.countP_eq_zero.mpr (fun g hg hgid => by
            simp only [decide_eq_true_eq] at hgid
            exact hni (List.mem_map.mpr ⟨g, hg, hgid⟩))
        simp [h0]
      · have hne : f.id ≠ b.id := fun he =>
          hni (List.mem_map.mpr ⟨b, hmem, he.symm⟩)
        rw [List.countP_cons]
        simp [hne, ih hrest hmem]

/-! ### Claims -/

/-- C2: after `updateGlobalSettings(Δ)`, every item whose status is IDLE
has its settings equal to its previous settings merged with Δ (and no
other field changed), and every item in any other status is entirely
unchanged. -/
theorem c2_settings_propagation (p : PartialSettings) (st : AppState)
    (i : Nat) (h : i < st.files.length) :
    ∃ h2 : i < (updateGlobalSettings p st).files.length,
      (st.files[i].status = ProcessingStatus.IDLE →
        (updateGlobalSettings p st).files[i]
          = { st.files[i] with
              settings := mergeSettings st.files[i].settings p }) ∧
      (st.files[i].status ≠ ProcessingStatus.IDLE →
        (updateGlobalSettings p st).files[i] = st.files[i]) := by
  have hlen : (updateGlobalSettings p st).files.length = st.files.length := by
    simp [updateGlobalSettings]
  refine ⟨hlen ▸ h, ?_, ?_⟩
  · intro hs
    simp [updateGlobalSettings, List.getElem_map, hs]
  · intro hs
    simp [updateGlobalSettings, List.getElem_map, hs]

/-- Witness for C2 at a concrete state: one IDLE item, a DPI-only
update. -/
theorem c2_witness :
    ∃ h2 : 0 < (updateGlobalSettings { dpi := some 150 }
        { files := [itemA], globalSettings := DEFAULT_SETTINGS }).files.length,
      (([itemA][0]).status = ProcessingStatus.IDLE →
        (updateGlobalSettings { dpi := some 150 }
            { files := [itemA], globalSettings := DEFAULT_SETTINGS }).files[0]
          = { [itemA][0] with
              settings := mergeSettings ([itemA][0]).settings { dpi := some 150 } }) ∧
      (([itemA][0]).status ≠ ProcessingStatus.IDLE →
        (updateGlobalSettings { dpi := some 150 }
            { files := [itemA], globalSettings := DEFAULT_SETTINGS }).files[0]
          = [itemA][0]) :=
  c2_settings_propagation { dpi := some 150 }
    { files := [itemA], globalSettings := DEFAULT_SETTINGS } 0 (by decide)

/-- C5: submission is all-or-nothing. For an incoming list of images
(image MIME types), if the existing count plus the incoming count
exceeds the configured maximum, `handleFiles` leaves the state exactly
unchanged; otherwise it appends all incoming images. -/
theorem c5_capacity_all_or_nothing (maxFiles : Nat) (gen : Nat → String)
    (raws : List RawFile) (st : AppState)
    (himg : ∀ r ∈ raws, isImageFile r = true) :
    (st.files.length + raws.length > maxFiles →
      handleFiles maxFiles gen raws st = st) ∧
    (st.files.length + raws.length ≤ maxFiles →
      (handleFiles maxFiles gen raws st).files
          = st.files ++ newItems gen st.globalSettings raws ∧
        (handleFiles maxFiles gen raws st).files.length
          = st.files.length + raws.length) := by
  have hf : raws.filter isImageFile = raws := List.filter_eq_self.mpr himg
  constructor
  · intro hover
    unfold handleFiles
    rw [if_pos (by rw [hf]; exact hover)]
  · intro hunder
    unfold handleFiles
    rw [if_neg (by rw [hf]; omega)]
    refine ⟨rfl, ?_⟩
    simp [newItems, hf]

/-- Witness for C5: with a maximum of 1 and 1 item present, submitting
one more image is rejected and the state is unchanged; with a maximum
of 3 it is admitted. -/
theorem c5_witness :
    handleFiles 1 (fun _ => "idB") [rawPngB]
        { files := [itemA], globalSettings := DEFAULT_SETTINGS }
      = { files := [itemA], globalSettings := DEFAULT_SETTINGS } ∧
    (handleFiles 3 (fun _ => "idB") [rawPngB]
        { files := [itemA], globalSettings := DEFAULT_SETTINGS }).files.length = 2 := by
  constructor
  · exact (c5_capacity_all_or_nothing 1 (fun _ => "idB") [rawPngB]
      { files := [itemA], globalSettings := DEFAULT_SETTINGS }
      (by decide)).1 (by decide)
  · exact ((c5_capacity_all_or_nothing 3 (fun _ => "idB") [rawPngB]
      { files := [itemA], globalSettings := DEFAULT_SETTINGS }
      (by decide)).2 (by decide)).2

/-- C8: when a dimension probe resolves for an id that is no longer in
the file list, the update is a no-op: the list is unchanged (nothing is
recreated, nothing fails). -/
theorem c8_probe_discarded (fs : List ImageFile) (i : String) (w h : Nat)
    (habs : ∀ f ∈ fs, f.id ≠ i) :
    applyDimensions fs i w h = fs := by
  rw [applyDimensions_eq]
  exact updateById_not_mem habs _

/-- Witness for C8: the probe for a removed id leaves a concrete list
unchanged. -/
theorem c8_witness :
    applyDimensions [itemA] "removedId" 640 480 = [itemA] :=
  c8_probe_discarded [itemA] "removedId" 640 480 (by decide)

/-- C9: for every valid raster (both dimensions positive) and every
factor in {1, 2, 4, 8}, the resampler succeeds with output dimensions
(w·f, h·f), and factor 1 returns the input raster itself. -/
theorem c9_resampler_dims (r : Raster) (factor : Nat) (ps : Bool)
    (hfac : factor = 1 ∨ factor = 2 ∨ factor = 4 ∨ factor = 8)
    (hw : 0 < r.width) (hh : 0 < r.height) :
    ∃ out, resample r factor ps = Except.ok out ∧
      out.width = r.width * factor ∧ out.height = r.height * factor ∧
      (factor = 1 → out = r) := by
  unfold resample
  rw [if_neg (by omega)]
  by_cases h1 : factor = 1
  · rw [if_pos h1]
    exact ⟨r, rfl, by simp [h1], by simp [h1], fun _ => rfl⟩
  · rw [if_neg h1]
    exact ⟨_, rfl, rfl, rfl, fun hc => absurd hc h1⟩

/-- Witness for C9 at a concrete raster and factor 4. -/
theorem c9_witness :
    ∃ out, resample { width := 3, height := 5, pixel := fun _ _ => 0 } 4 true
        = Except.ok out ∧
      out.width = 3 * 4 ∧ out.height = 5 * 4 ∧
      (4 = 1 → out = { width := 3, height := 5, pixel := fun _ _ => 0 }) :=
  c9_resampler_dims { width := 3, height := 5, pixel := fun _ _ => 0 } 4 true
    (by decide) (by decide) (by decide)

/-- C10: when a retry of an ERROR item succeeds, the transition to
COMPLETED changes only the status and the attached output: every other
field — in particular the error message "Processing failed" recorded by
the failed attempt — is carried over to the now-COMPLETED item. -/
theorem c10_stale_error_after_retry (res : String → Option String)
    (fs : List ImageFile) (b : ImageFile) (u : String)
    (hnd : (fs.map fun f => f.id).Nodup) (hb : b ∈ fs)
    (hstat : b.status = ProcessingStatus.ERROR)
    (herr : b.error = some "Processing failed")
    (hres : res b.id = some u) :
    ∀ x ∈ processBatch res fs, x.id = b.id →
      x = { b with
            status := ProcessingStatus.COMPLETED
            processedUrl := some u } ∧
      x.error = some "Processing failed" := by
  rw [processBatch_eq res fs hnd]
  intro x hx hxid
  obtain ⟨f, hf, hfx⟩ := List.mem_map.mp hx
  have hfid : f.id = b.id := by
    by_cases he : eligible f = true
    · rw [if_pos he] at hfx
      rw [← hfx, outcomeUpdate_id] at hxid
      exact hxid
    · rw [if_neg he] at hfx
      rw [← hfx] at hxid
      exact hxid
  have hfb : f = b := List.inj_on_of_nodup_map hnd hf hb hfid
  subst hfb
  have he : eligible f = true := by simp [eligible, hstat]
  rw [if_pos he, hres] at hfx
  refine ⟨?_, ?_⟩
  · rw [← hfx]; rfl
  · rw [← hfx]
    show f.error = some "Processing failed"
    exact herr

theorem zipEntries_none (fetchBytes : String → Option String) :
    ∀ (l : List ImageFile) (f : ImageFile) (u : String),
      f ∈ l → f.processedUrl = some u → fetchBytes u = none →
      zipEntries fetchBytes l = none := by
  intro l
  induction l with
  | nil => intro f u hf _ _; cases hf
  | cons g rest ih =>
      intro f u hf hurl hfetch
      rcases List.mem_cons.mp hf with hg | hmem
      · subst hg
        simp only [zipEntries, hurl, hfetch]
      · show zipEntries fetchBytes (g :: rest) = none
        unfold zipEntries
        cases hg : g.processedUrl with
        | none => exact ih f u hmem hurl hfetch
        | some gu =>
            cases hb : fetchBytes gu with
            | none => simp [hb]
            | some bytes => rw [ih f u hmem hurl hfetch]; simp [hb]

/-- C4: `downloadAllZip` never modifies the component state — neither on
success nor on failure — and if fetching the bytes of any completed
item's output fails, no bundle is produced. -/
theorem c4_export_atomicity (fetchBytes : String → Option String)
    (date : String) (st : AppState) :
    (downloadAllZip fetchBytes date st).2 = st ∧
    (∀ f ∈ completedFiles st.files, ∀ u, f.processedUrl = some u →
      fetchBytes u = none → (downloadAllZip fetchBytes date st).1 = none) := by
  constructor
  · unfold downloadAllZip
    by_cases hlen : (completedFiles st.files).length = 0
    · rw [if_pos hlen]
    · rw [if_neg hlen]
      cases hz : zipEntries fetchBytes (completedFiles st.files) <;> rfl
  · intro f hf u hurl hfetch
    unfold downloadAllZip
    have hlen : ¬ (completedFiles st.files).length = 0 := by
      intro h0
      rw [List.length_eq_zero] at h0
      rw [h0] at hf
      cases hf
    rw [if_neg hlen, zipEntries_none fetchBytes _ f u hf hurl hfetch]

/-- A concrete completed item holding an output URL. -/
def itemACompleted : ImageFile :=
  { itemA with status := ProcessingStatus.COMPLETED, processedUrl := some "blob:pA" }

/-- Witness for C4: with one completed item and a failing fetch, the
export yields no bundle and the state is exactly preserved. -/
theorem c4_witness :
    (downloadAllZip (fun _ => none) "2026-10-11"
        { files := [itemACompleted], globalSettings := DEFAULT_SETTINGS }).2
      = { files := [itemACompleted], globalSettings := DEFAULT_SETTINGS } ∧
    (downloadAllZip (fun _ => none) "2026-10-11"
        { files := [itemACompleted], globalSettings := DEFAULT_SETTINGS }).1
      = none :=
  ⟨(c4_export_atomicity (fun _ => none) "2026-10-11"
      { files := [itemACompleted], globalSettings := DEFAULT_SETTINGS }).1,
    (c4_export_atomicity (fun _ => none) "2026-10-11"
      { files := [itemACompleted], globalSettings := DEFAULT_SETTINGS }).2
      itemACompleted (by decide) "blob:pA" rfl rfl⟩

/-- A concrete item after a failed processing attempt. -/
def itemAErr : ImageFile :=
  { itemA with status := ProcessingStatus.ERROR, error := some "Processing failed" }

/-- The concrete item of the C10 witness after its successful retry. -/
def itemARetried : ImageFile :=
  { itemAErr with
    status := ProcessingStatus.COMPLETED
    processedUrl := some "blob:out" }

/-- Witness for C10: a concrete ERROR item retried successfully keeps
the stale message. -/
theorem c10_witness :
    itemARetried = { itemAErr with
      status := ProcessingStatus.COMPLETED
      processedUrl := some "blob:out" } ∧
    itemARetried.error = some "Processing failed" :=
  c10_stale_error_after_retry (fun _ => some "blob:out") [itemAErr] itemAErr
    "blob:out" (by decide) (List.mem_singleton.mpr rfl) rfl rfl rfl
    itemARetried (by decide) rfl

/-- C1: failure isolation. Over a batch of N eligible items in which
exactly one item's processing fails, a full run leaves N−1 items
COMPLETED and exactly 1 item ERROR carrying "Processing failed"; a
re-run whose processing of that item succeeds moves it to COMPLETED. -/
theorem c1_failure_isolation (res res2 : String → Option String)
    (fs : List ImageFile) (b : ImageFile) (u : String)
    (hnd : (fs.map fun f => f.id).Nodup)
    (helig : ∀ f ∈ fs, eligible f = true)
    (hb : b ∈ fs)
    (hbad : res b.id = none)
    (hok : ∀ f ∈ fs, f.id ≠ b.id → (res f.id).isSome = true)
    (hretry : res2 b.id = some u) :
    ((processBatch res fs).countP
        (fun f => decide (f.status = ProcessingStatus.COMPLETED))
      = fs.length - 1) ∧
    ((processBatch res fs).countP
        (fun f => decide (f.status = ProcessingStatus.ERROR)) = 1) ∧
    (∀ x ∈ processBatch res fs, x.id = b.id →
      x.status = ProcessingStatus.ERROR ∧ x.error = some "Processing failed") ∧
    (∀ x ∈ processBatch res2 (processBatch res fs), x.id = b.id →
      x.status = ProcessingStatus.COMPLETED) := by
  have Heq2 : processBatch res fs = fs.map (fun f => outcomeUpdate (res f.id) f) :=
    (processBatch_eq res fs hnd).trans
      (List.map_congr_left (fun a ha => by rw [if_pos (helig a ha)]))
  have hstatus : ∀ f ∈ fs,
      (decide ((outcomeUpdate (res f.id) f).status = ProcessingStatus.COMPLETED))
        = !(decide (f.id = b.id)) := by
    intro f hf
    by_cases hid : f.id = b.id
    · simp [outcomeUpdate, hid, hbad]
    · have hs := hok f hf hid
      cases hr : res f.id with
      | none => rw [hr] at hs; cases hs
      | some v => simp [outcomeUpdate, hr, hid]
  refine ⟨?_, ?_, ?_, ?_⟩
  · rw [Heq2, List.countP_map]
    have := countP_congr_mem (l := fs)
      (p := (fun x => decide (x.status = ProcessingStatus.COMPLETED)) ∘
        (fun f => outcomeUpdate (res f.id) f))
      (q := fun f => !(decide (f.id = b.id)))
      (fun a ha => by simpa [Function.comp] using hstatus a ha)
    rw [this]
    have hlen := List.length_eq_countP_add_countP
      (fun f => decide (f.id = b.id)) fs
    have h1 := countP_id_eq_one hnd hb
    have : fs.countP (fun a => !(decide (a.id = b.id)))
        = fs.countP (fun a => decide ¬(decide (a.id = b.id) = true)) :=
      countP_congr_mem (fun a _ => by by_cases h : a.id = b.id <;> simp [h])
    omega
  · rw [Heq2, List.countP_map]
    have hcong := countP_congr_mem (l := fs)
      (p := (fun x => decide (x.status = ProcessingStatus.ERROR)) ∘
        (fun f => outcomeUpdate (res f.id) f))
      (q := fun f => decide (f.id = b.id)) (fun a ha => by
        by_cases hid : a.id = b.id
        · simp [Function.comp, outcomeUpdate, hid, hbad]
        · have hs := hok a ha hid
          cases hr : res a.id with
          | none => rw [hr] at hs; cases hs
          | some v => simp [Function.comp, outcomeUpdate, hr, hid])
    rw [hcong, countP_id_eq_one hnd hb]
  · intro x hx hxid
    rw [Heq2] at hx
    obtain ⟨f, hf, hfx⟩ := List.mem_map.mp hx
    have hfid : f.id = b.id := by
      rw [← hfx, outcomeUpdate_id] at hxid
      exact hxid
    have hfb : f = b := List.inj_on_of_nodup_map hnd hf hb hfid
    subst hfb
    have hr : res f.id = none := by rw [hfid, hbad]
    rw [← hfx, hr]
    exact ⟨rfl, rfl⟩
  · intro x hx hxid
    have hnd2 : ((processBatch res fs).map fun f => f.id).Nodup := by
      rw [processBatch_ids res fs hnd]
      exact hnd
    rw [processBatch_eq res2 _ hnd2] at hx
    obtain ⟨f2, hf2, hf2x⟩ := List.mem_map.mp hx
    have hf2id : f2.id = b.id := by
      by_cases he : eligible f2 = true
      · rw [if_pos he] at hf2x
        rw [← hf2x, outcomeUpdate_id] at hxid
        exact hxid
      · rw [if_neg he] at hf2x
        rw [← hf2x] at hxid
        exact hxid
    rw [Heq2] at hf2
    obtain ⟨f, hf, hff2⟩ := List.mem_map.mp hf2
    have hfid : f.id = b.id := by
      rw [← hff2, outcomeUpdate_id] at hf2id
      exact hf2id
    have hfb : f = b := List.inj_on_of_nodup_map hnd hf hb hfid
    subst hfb
    have hr : res f.id = none := by rw [hfid, hbad]
    rw [hr] at hff2
    have he2 : eligible f2 = true := by
      rw [← hff2]
      rfl
    rw [if_pos he2] at hf2x
    have : res2 f2.id = some u := by rw [hf2id, hretry]
    rw [← hf2x, this]
    rfl

/-- Witness for C1: two eligible items, the first fails, the second
succeeds; the retry of the first succeeds. -/
theorem c1_witness :
    ((processBatch (fun i => if i = "idA" then none else some "blob:ok")
        [itemA, itemB]).countP
        (fun f => decide (f.status = ProcessingStatus.COMPLETED))
      = [itemA, itemB].length - 1) ∧
    ((processBatch (fun i => if i = "idA" then none else some "blob:ok")
        [itemA, itemB]).countP
        (fun f => decide (f.status = ProcessingStatus.ERROR)) = 1) ∧
    (∀ x ∈ processBatch (fun i => if i = "idA" then none else some "blob:ok")
        [itemA, itemB], x.id = itemA.id →
      x.status = ProcessingStatus.ERROR ∧ x.error = some "Processing failed") ∧
    (∀ x ∈ processBatch (fun _ => some "blob:retry")
        (processBatch (fun i => if i = "idA" then none else some "blob:ok")
          [itemA, itemB]), x.id = itemA.id →
      x.status = ProcessingStatus.COMPLETED) :=
  c1_failure_isolation (fun i => if i = "idA" then none else some "blob:ok")
    (fun _ => some "blob:retry") [itemA, itemB] itemA "blob:retry"
    (by decide) (by decide) (by decide) (by decide) (by decide) rfl

theorem countP_id_le_one {fs : List ImageFile}
    (hnd : (fs.map fun f => f.id).Nodup) (i : String) :
    fs.countP (fun f => decide (f.id = i)) ≤ 1 := by
  induction fs with
  | nil => simp
  | cons f rest ih =>
      simp only [List.map_cons, List.nodup_cons] at hnd
      obtain ⟨hni, hrest⟩ := hnd
      rw [List.countP_cons]
      by_cases hfi : f.id = i
      · have h0 : rest.countP (fun x => decide (x.id = i)) = 0 :=
          List.countP_eq_zero.mpr (fun g hg hgid => by
            simp only [decide_eq_true_eq] at hgid
            exact hni (List.mem_map.mpr ⟨g, hg, hgid.trans hfi.symm⟩))
        simp [hfi, h0]
      · simp [hfi, ih hrest]

theorem setProcessing_countP_le_one {fs : List ImageFile} {i : String}
    (hnd : (fs.map fun f => f.id).Nodup)
    (hnp : ∀ f ∈ fs, f.status ≠ ProcessingStatus.PROCESSING) :
    (setProcessing fs i).countP
      (fun f => decide (f.status = ProcessingStatus.PROCESSING)) ≤ 1 := by
  unfold setProcessing
  rw [List.countP_map]
  have hcong := countP_congr_mem (l := fs)
    (p := (fun x => decide (x.status = ProcessingStatus.PROCESSING)) ∘
      (fun f => if f.id = i
        then { f with status := ProcessingStatus.PROCESSING } else f))
    (q := fun f => decide (f.id = i))
    (fun a ha => by
      by_cases hai : a.id = i
      · simp [Function.comp, hai]
      · simp [Function.comp, hai, hnp a ha])
  rw [hcong]
  exact countP_id_le_one hnd i

theorem outcome_no_processing {fs : List ImageFile} {i : String}
    {o : Option String}
    (hnp : ∀ f ∈ fs, f.status ≠ ProcessingStatus.PROCESSING) :
    ∀ x ∈ updateById fs i (outcomeUpdate o),
      x.status ≠ ProcessingStatus.PROCESSING := by
  intro x hx
  obtain ⟨y, hy, hxy⟩ := List.mem_map.mp hx
  by_cases hyi : y.id = i
  · rw [if_pos hyi] at hxy
    rw [← hxy]
    cases o <;> simp [outcomeUpdate]
  · rw [if_neg hyi] at hxy
    rw [← hxy]
    exact hnp y hy

theorem batchTraceLoop_length (res : String → Option String) :
    ∀ (toProcess fs : List ImageFile),
      (batchTraceLoop toProcess res fs).length = 2 * toProcess.length := by
  intro toProcess
  induction toProcess with
  | nil => intro fs; rfl
  | cons t rest ih =>
      intro fs
      show (_ :: _ :: batchTraceLoop rest res _).length = _
      rw [List.length_cons, List.length_cons, ih, List.length_cons]
      ring

theorem batchTraceLoop_atMostOne (res : String → Option String) :
    ∀ (toProcess fs : List ImageFile),
      (fs.map fun f => f.id).Nodup →
      (∀ f ∈ fs, f.status ≠ ProcessingStatus.PROCESSING) →
      ∀ st ∈ batchTraceLoop toProcess res fs,
        st.countP (fun f => decide (f.status = ProcessingStatus.PROCESSING)) ≤ 1 := by
  intro toProcess
  induction toProcess with
  | nil => intro fs _ _ st hst; cases hst
  | cons t rest ih =>
      intro fs hnd hnp st hst
      have hcollapse :
          applyOutcome (setProcessing fs t.id) t.id (res t.id)
            = updateById fs t.id (outcomeUpdate (res t.id)) :=
        setProcessing_then_outcome fs t.id (res t.id)
      rcases List.mem_cons.mp hst with hst1 | hst'
      · rw [hst1]
        exact setProcessing_countP_le_one hnd hnp
      rcases List.mem_cons.mp hst' with hst2 | htr
      · rw [hst2, hcollapse]
        have h0 : (updateById fs t.id (outcomeUpdate (res t.id))).countP
            (fun f => decide (f.status = ProcessingStatus.PROCESSING)) = 0 :=
          List.countP_eq_zero.mpr (fun x hx hpx =>
            outcome_no_processing hnp x hx (by simpa using hpx))
        rw [h0]
        omega
      · rw [hcollapse] at htr
        exact ih (updateById fs t.id (outcomeUpdate (res t.id)))
          (by rw [updateById_map_id (outcomeUpdate_id (res t.id))]; exact hnd)
          (outcome_no_processing hnp) st htr

theorem batchTraceLoop_cons (res : String → Option String)
    (hd : ImageFile) (rest fs : List ImageFile) :
    batchTraceLoop (hd :: rest) res fs
      = setProcessing fs hd.id
        :: updateById fs hd.id (outcomeUpdate (res hd.id))
        :: batchTraceLoop rest res
            (updateById fs hd.id (outcomeUpdate (res hd.id))) := by
  show setProcessing fs hd.id
      :: applyOutcome (setProcessing fs hd.id) hd.id (res hd.id)
      :: batchTraceLoop rest res
          (applyOutcome (setProcessing fs hd.id) hd.id (res hd.id)) = _
  rw [setProcessing_then_outcome]

theorem batchTraceLoop_order (res : String → Option String) :
    ∀ (toProcess fs : List ImageFile),
      (∀ g ∈ toProcess, g.id ∈ fs.map fun f => f.id) →
      (∀ f ∈ fs, f.status ≠ ProcessingStatus.PROCESSING) →
      ∀ (k : Nat) (st : List ImageFile) (t : ImageFile),
        (batchTraceLoop toProcess res fs)[2 * k]? = some st →
        toProcess[k]? = some t →
        (∃ x ∈ st, x.id = t.id ∧ x.status = ProcessingStatus.PROCESSING) ∧
        (∀ x ∈ st, x.status = ProcessingStatus.PROCESSING → x.id = t.id) := by
  intro toProcess
  induction toProcess with
  | nil =>
      intro fs _ _ k st t _ htp
      simp at htp
  | cons hd rest ih =>
      intro fs hmem hnp k st t hst htp
      rw [batchTraceLoop_cons] at hst
      cases k with
      | zero =>
          rw [Nat.mul_zero, List.getElem?_cons_zero, Option.some_inj] at hst
          rw [List.getElem?_cons_zero, Option.some_inj] at htp
          subst hst
          subst htp
          constructor
          · obtain ⟨y, hy, hyid⟩ := List.mem_map.mp
              (hmem hd (List.mem_cons_self hd rest))
            refine ⟨{ y with status := ProcessingStatus.PROCESSING }, ?_, hyid, rfl⟩
            have : (fun f => if f.id = hd.id
                then { f with status := ProcessingStatus.PROCESSING } else f) y
                = { y with status := ProcessingStatus.PROCESSING } := if_pos hyid
            exact this ▸ List.mem_map.mpr ⟨y, hy, rfl⟩
          · intro x hx hxp
            obtain ⟨y, hy, hxy⟩ := List.mem_map.mp hx
            by_cases hyi : y.id = hd.id
            · rw [if_pos hyi] at hxy
              rw [← hxy]
              exact hyi
            · rw [if_neg hyi] at hxy
              rw [← hxy] at hxp
              exact absurd hxp (hnp y hy)
      | succ k =>
          have harith : 2 * (k + 1) = 2 * k + 1 + 1 := by ring
          rw [harith, List.getElem?_cons_succ, List.getElem?_cons_succ] at hst
          rw [List.getElem?_cons_succ] at htp
          exact ih (updateById fs hd.id (outcomeUpdate (res hd.id)))
            (fun g hg => by
              rw [updateById_map_id (outcomeUpdate_id (res hd.id))]
              exact hmem g (List.mem_cons_of_mem hd hg))
            (outcome_no_processing hnp) k st t hst htp

/-! ### Invariants of the reachable configurations -/

/-- The output/status discipline: an item holds an output exactly when
it is COMPLETED. -/
def OutputInv (fs : List ImageFile) : Prop :=
  ∀ f ∈ fs, f.processedUrl.isSome = true ↔ f.status = ProcessingStatus.COMPLETED

/-- Consistency of an in-flight batch continuation with the file list:
the snapshot ids are distinct, no item sharing the awaited head's id is
COMPLETED, and items sharing a not-yet-started snapshot id are still
IDLE or ERROR. -/
def PendingInv (fs : List ImageFile) : Option (List ImageFile) → Prop
  | none => True
  | some [] => False
  | some (f :: rest) =>
      ((f :: rest).map (fun g => g.id)).Nodup ∧
      (∀ x ∈ fs, x.id = f.id → x.status ≠ ProcessingStatus.COMPLETED) ∧
      (∀ g ∈ rest, ∀ x ∈ fs, x.id = g.id →
        x.status = ProcessingStatus.IDLE ∨ x.status = ProcessingStatus.ERROR)

/-- The inductive invariant: distinct ids, the output/status discipline,
and continuation consistency. -/
def Inv (cfg : Config) : Prop :=
  (cfg.files.map (fun f => f.id)).Nodup ∧ OutputInv cfg.files ∧
    PendingInv cfg.files cfg.pending

/-- Per-item updaters that touch neither identity, status nor output. -/
def FieldsPreserving (g : ImageFile → ImageFile) : Prop :=
  ∀ f, (g f).id = f.id ∧ (g f).status = f.status ∧
    (g f).processedUrl = f.processedUrl

theorem map_ids_of_preserving {g : ImageFile → ImageFile}
    (hg : FieldsPreserving g) (fs : List ImageFile) :
    (fs.map g).map (fun f => f.id) = fs.map (fun f => f.id) := by
  rw [List.map_map]
  exact List.map_congr_left (fun a _ => (hg a).1)

theorem outputInv_map_of_preserving {g : ImageFile → ImageFile}
    (hg : FieldsPreserving g) {fs : List ImageFile}
    (h : OutputInv fs) : OutputInv (fs.map g) := by
  intro x hx
  obtain ⟨y, hy, hxy⟩ := List.mem_map.mp hx
  rw [← hxy, (hg y).2.1, (hg y).2.2]
  exact h y hy

theorem idStatus_map_of_preserving {g : ImageFile → ImageFile}
    (hg : FieldsPreserving g) {fs : List ImageFile} {i : String}
    {P : ProcessingStatus → Prop} (h : ∀ x ∈ fs, x.id = i → P x.status) :
    ∀ x ∈ fs.map g, x.id = i → P x.status := by
  intro x hx hxi
  obtain ⟨y, hy, hxy⟩ := List.mem_map.mp hx
  rw [← hxy, (hg y).2.1]
  exact h y hy (by rw [← (hg y).1, hxy]; exact hxi)

theorem pendingInv_map_of_preserving {g : ImageFile → ImageFile}
    (hg : FieldsPreserving g) {fs : List ImageFile}
    {pend : Option (List ImageFile)}
    (h : PendingInv fs pend) : PendingInv (fs.map g) pend := by
  cases pend with
  | none => trivial
  | some l =>
      cases l with
      | nil => exact h
      | cons f rest =>
          obtain ⟨h1, h2, h3⟩ := h
          exact ⟨h1,
            idStatus_map_of_preserving
              (P := fun s => s ≠ ProcessingStatus.COMPLETED) hg h2,
            fun gg hgg =>
              idStatus_map_of_preserving
                (P := fun s => s = ProcessingStatus.IDLE ∨
                  s = ProcessingStatus.ERROR) hg (h3 gg hgg)⟩

theorem outputInv_of_subset {fs' fs : List ImageFile}
    (hsub : ∀ x ∈ fs', x ∈ fs) (h : OutputInv fs) : OutputInv fs' :=
  fun x hx => h x (hsub x hx)

theorem pendingInv_of_subset {fs' fs : List ImageFile}
    {pend : Option (List ImageFile)}
    (hsub : ∀ x ∈ fs', x ∈ fs) (h : PendingInv fs pend) :
    PendingInv fs' pend := by
  cases pend with
  | none => trivial
  | some l =>
      cases l with
      | nil => exact h
      | cons f rest =>
          obtain ⟨h1, h2, h3⟩ := h
          exact ⟨h1, fun x hx => h2 x (hsub x hx),
            fun gg hgg x hx => h3 gg hgg x (hsub x hx)⟩

theorem filter_ids_nodup {fs : List ImageFile} (p : ImageFile → Bool)
    (hnd : (fs.map fun f => f.id).Nodup) :
    ((fs.filter p).map fun f => f.id).Nodup :=
  ((List.filter_sublist fs).map (fun f => f.id)).nodup hnd

theorem newItems_fields (gen : Nat → String) (gs : ImageSettings)
    (raws : List RawFile) :
    ∀ x ∈ newItems gen gs raws,
      x.status = ProcessingStatus.IDLE ∧ x.processedUrl = none := by
  intro x hx
  obtain ⟨q, _, hxq⟩ := List.mem_map.mp hx
  rw [← hxq]
  exact ⟨rfl, rfl⟩

theorem setProcessing_ids (fs : List ImageFile) (i : String) :
    (setProcessing fs i).map (fun f => f.id) = fs.map (fun f => f.id) := by
  rw [setProcessing_eq]
  exact updateById_map_id
    (u := fun f => { f with status := ProcessingStatus.PROCESSING })
    (fun f => rfl) fs i

theorem applyOutcome_ids (fs : List ImageFile) (i : String) (o : Option String) :
    (applyOutcome fs i o).map (fun f => f.id) = fs.map (fun f => f.id) := by
  rw [applyOutcome_eq]
  exact updateById_map_id (outcomeUpdate_id o) fs i

theorem eligible_iff {f : ImageFile} :
    eligible f = true ↔
      (f.status = ProcessingStatus.IDLE ∨ f.status = ProcessingStatus.ERROR) := by
  simp [eligible]

theorem inv_submit {m : Nat} {cfg : Config} (gen : Nat → String)
    (raws : List RawFile)
    (hfresh : ((cfg.files ++ newItems gen cfg.globalSettings raws).map
      (fun f => f.id)).Nodup)
    (hi : Inv cfg) :
    Inv { cfg with toAppState := handleFiles m gen raws cfg.toAppState } := by
  obtain ⟨hnd, hout, hpend⟩ := hi
  by_cases hcap :
      cfg.toAppState.files.length + (raws.filter isImageFile).length > m
  · have hHF : handleFiles m gen raws cfg.toAppState = cfg.toAppState := by
      unfold handleFiles
      rw [if_pos hcap]
    rw [hHF]
    exact ⟨hnd, hout, hpend⟩
  · have hHF : handleFiles m gen raws cfg.toAppState
        = { cfg.toAppState with
            files := cfg.files ++ newItems gen cfg.globalSettings raws } := by
      unfold handleFiles
      rw [if_neg hcap]
    rw [hHF]
    refine ⟨hfresh, ?_, ?_⟩
    · intro x hx
      rcases List.mem_append.mp hx with hold | hnew
      · exact hout x hold
      · obtain ⟨hstat, hurl⟩ := newItems_fields gen cfg.globalSettings raws x hnew
        rw [hstat, hurl]
        simp
    · show PendingInv (cfg.files ++ newItems gen cfg.globalSettings raws)
        cfg.pending
      cases hp : cfg.pending with
      | none => trivial
      | some l =>
          rw [hp] at hpend
          cases l with
          | nil => exact hpend.elim
          | cons f rest =>
              obtain ⟨h1, h2, h3⟩ := hpend
              refine ⟨h1, ?_, ?_⟩
              · intro x hx hxf
                rcases List.mem_append.mp hx with hold | hnew
                · exact h2 x hold hxf
                · rw [(newItems_fields gen cfg.globalSettings raws x hnew).1]
                  intro hc
                  cases hc
              · intro gg hgg x hx hxg
                rcases List.mem_append.mp hx with hold | hnew
                · exact h3 gg hgg x hold hxg
                · exact Or.inl (newItems_fields gen cfg.globalSettings raws x hnew).1

theorem inv_start {cfg : Config} (hi : Inv cfg) : Inv (startBatchStep cfg) := by
  obtain ⟨hnd, hout, hpend⟩ := hi
  unfold startBatchStep
  cases hsel : cfg.files.filter eligible with
  | nil => exact ⟨hnd, hout, trivial⟩
  | cons f rest =>
      have hfmem : f ∈ cfg.files ∧ eligible f = true := by
        have hmf : f ∈ cfg.files.filter eligible := by
          rw [hsel]
          exact List.mem_cons_self f rest
        exact ⟨(List.mem_filter.mp hmf).1, (List.mem_filter.mp hmf).2⟩
      have hpnodup : ((f :: rest).map (fun g => g.id)).Nodup := by
        rw [← hsel]
        exact filter_ids_nodup eligible hnd
      refine ⟨?_, ?_, ?_, ?_, ?_⟩
      · show ((setProcessing cfg.files f.id).map (fun q => q.id)).Nodup
        rw [setProcessing_ids]
        exact hnd
      · intro x hx
        obtain ⟨y, hy, hxy⟩ := List.mem_map.mp hx
        by_cases hyi : y.id = f.id
        · rw [if_pos hyi] at hxy
          have hyf : y = f := List.inj_on_of_nodup_map hnd hy hfmem.1 hyi
          have hne : y.status ≠ ProcessingStatus.COMPLETED := by
            rw [hyf]
            intro hc
            rcases eligible_iff.mp hfmem.2 with h | h <;> rw [hc] at h <;> cases h
          have hurl : y.processedUrl = none := by
            cases hu : y.processedUrl with
            | none => rfl
            | some v =>
                have hc := (hout y hy).mp (by rw [hu]; rfl)
                exact absurd hc hne
          rw [← hxy]
          show ({ y with status := ProcessingStatus.PROCESSING
              } : ImageFile).processedUrl.isSome = true ↔ _
          rw [show ({ y with status := ProcessingStatus.PROCESSING
              } : ImageFile).processedUrl = y.processedUrl from rfl, hurl]
          simp
        · rw [if_neg hyi] at hxy
          rw [← hxy]
          exact hout y hy
      · exact hpnodup
      · intro x hx hxf
        obtain ⟨y, hy, hxy⟩ := List.mem_map.mp hx
        by_cases hyi : y.id = f.id
        · rw [if_pos hyi] at hxy
          rw [← hxy]
          intro hc
          cases hc
        · rw [if_neg hyi] at hxy
          rw [← hxy] at hxf
          exact absurd hxf hyi
      · intro g hg x hx hxg
        have hgmem : g ∈ cfg.files ∧ eligible g = true := by
          have hmg : g ∈ cfg.files.filter eligible := by
            rw [hsel]
            exact List.mem_cons_of_mem f hg
          exact ⟨(List.mem_filter.mp hmg).1, (List.mem_filter.mp hmg).2⟩
        have hgf : g.id ≠ f.id := by
          intro he
          have hnm : f.id ∉ rest.map (fun q => q.id) :=
            (List.nodup_cons.mp (by simpa using hpnodup)).1
          exact hnm (List.mem_map.mpr ⟨g, hg, he⟩)
        obtain ⟨y, hy, hxy⟩ := List.mem_map.mp hx
        by_cases hyi : y.id = f.id
        · exfalso
          rw [if_pos hyi] at hxy
          apply hgf
          rw [← hxg, ← hxy]
          exact hyi
        · rw [if_neg hyi] at hxy
          rw [← hxy] at hxg ⊢
          have hyg : y = g := List.inj_on_of_nodup_map hnd hy hgmem.1 hxg
          rw [hyg]
          exact eligible_iff.mp hgmem.2

theorem inv_resume {cfg : Config} (f : ImageFile) (rest : List ImageFile)
    (o : Option String) (hp : cfg.pending = some (f :: rest)) (hi : Inv cfg) :
    Inv (resumeStep cfg f rest o) := by
  obtain ⟨hnd, hout, hpend⟩ := hi
  rw [hp] at hpend
  obtain ⟨hp1, hp2, hp3⟩ := hpend
  have hids1 : (applyOutcome cfg.files f.id o).map (fun q => q.id)
      = cfg.files.map (fun q => q.id) := applyOutcome_ids cfg.files f.id o
  have hout1 : OutputInv (applyOutcome cfg.files f.id o) := by
    rw [applyOutcome_eq]
    intro x hx
    obtain ⟨y, hy, hxy⟩ := List.mem_map.mp hx
    by_cases hyi : y.id = f.id
    · rw [if_pos hyi] at hxy
      have hnc : y.status ≠ ProcessingStatus.COMPLETED := hp2 y hy hyi
      have hurl : y.processedUrl = none := by
        cases hu : y.processedUrl with
        | none => rfl
        | some v => exact absurd ((hout y hy).mp (by rw [hu]; rfl)) hnc
      rw [← hxy]
      cases o with
      | some u => simp [outcomeUpdate]
      | none =>
          show (outcomeUpdate none y).processedUrl.isSome = true ↔ _
          rw [show (outcomeUpdate none y).processedUrl = y.processedUrl from rfl,
            hurl]
          simp [outcomeUpdate]
    · rw [if_neg hyi] at hxy
      rw [← hxy]
      exact hout y hy
  cases rest with
  | nil =>
      show Inv
        { files := applyOutcome cfg.files f.id o
          globalSettings := cfg.globalSettings
          pending := none }
      refine ⟨?_, hout1, trivial⟩
      rw [hids1]
      exact hnd
  | cons g rest2 =>
      show Inv
        { files := setProcessing (applyOutcome cfg.files f.id o) g.id
          globalSettings := cfg.globalSettings
          pending := some (g :: rest2) }
      rw [List.map_cons] at hp1
      obtain ⟨hfnot, hrestnd⟩ := List.nodup_cons.mp hp1
      have hrestnd2 := hrestnd
      rw [List.map_cons] at hrestnd2
      obtain ⟨hgrest2, _⟩ := List.nodup_cons.mp hrestnd2
      have hfg : f.id ≠ g.id := by
        intro he
        apply hfnot
        rw [he]
        exact List.mem_map.mpr ⟨g, List.mem_cons_self g rest2, rfl⟩
      have htailg : ∀ y ∈ applyOutcome cfg.files f.id o, y.id = g.id →
          y.status = ProcessingStatus.IDLE ∨
            y.status = ProcessingStatus.ERROR := by
        rw [applyOutcome_eq]
        intro y hy hyg
        obtain ⟨y0, hy0, hy0y⟩ := List.mem_map.mp hy
        by_cases hy0i : y0.id = f.id
        · rw [if_pos hy0i] at hy0y
          exact absurd (by rw [← hy0i, ← outcomeUpdate_id o y0, hy0y]; exact hyg :
            f.id = g.id) hfg
        · rw [if_neg hy0i] at hy0y
          rw [← hy0y] at hyg ⊢
          exact hp3 g (List.mem_cons_self g rest2) y0 hy0 hyg
      refine ⟨?_, ?_, ?_, ?_, ?_⟩
      · show ((setProcessing (applyOutcome cfg.files f.id o) g.id).map
          (fun q => q.id)).Nodup
        rw [setProcessing_ids, hids1]
        exact hnd
      · intro x hx
        obtain ⟨y, hy, hxy⟩ := List.mem_map.mp hx
        by_cases hyi : y.id = g.id
        · rw [if_pos hyi] at hxy
          have hst := htailg y hy hyi
          have hurl : y.processedUrl = none := by
            cases hu : y.processedUrl with
            | none => rfl
            | some v =>
                have hc := (hout1 y hy).mp (by rw [hu]; rfl)
                rcases hst with h | h <;> rw [hc] at h <;> cases h
          rw [← hxy]
          show ({ y with status := ProcessingStatus.PROCESSING
              } : ImageFile).processedUrl.isSome = true ↔ _
          rw [show ({ y with status := ProcessingStatus.PROCESSING
              } : ImageFile).processedUrl = y.processedUrl from rfl, hurl]
          simp
        · rw [if_neg hyi] at hxy
          rw [← hxy]
          exact hout1 y hy
      · exact hrestnd
      · intro x hx hxg
        obtain ⟨y, hy, hxy⟩ := List.mem_map.mp hx
        by_cases hyi : y.id = g.id
        · rw [if_pos hyi] at hxy
          rw [← hxy]
          intro hc
          cases hc
        · rw [if_neg hyi] at hxy
          rw [← hxy] at hxg
          exact absurd hxg hyi
      · intro h hh x hx hxh
        have hhg : h.id ≠ g.id := by
          intro he
          apply hgrest2
          rw [← he]
          exact List.mem_map.mpr ⟨h, hh, rfl⟩
        have hhf : h.id ≠ f.id := by
          intro he
          apply hfnot
          rw [← he]
          exact List.mem_map.mpr ⟨h, List.mem_cons_of_mem g hh, rfl⟩
        obtain ⟨y, hy, hxy⟩ := List.mem_map.mp hx
        by_cases hyi : y.id = g.id
        · exfalso
          rw [if_pos hyi] at hxy
          apply hhg
          rw [← hxh, ← hxy]
          exact hyi
        · rw [if_neg hyi] at hxy
          rw [← hxy] at hxh ⊢
          rw [applyOutcome_eq] at hy
          obtain ⟨y0, hy0, hy0y⟩ := List.mem_map.mp hy
          by_cases hy0i : y0.id = f.id
          · exfalso
            rw [if_pos hy0i] at hy0y
            apply hhf
            rw [← hxh, ← hy0y, outcomeUpdate_id]
            exact hy0i
          · rw [if_neg hy0i] at hy0y
            rw [← hy0y] at hxh ⊢
            exact hp3 h (List.mem_cons_of_mem g hh) y0 hy0 hxh

theorem inv_step {m : Nat} {c c2 : Config} (hs : Step m c c2) (hi : Inv c) :
    Inv c2 := by
  obtain ⟨hnd, hout, hpend⟩ := hi
  cases hs with
  | submit gen raws hfresh =>
      exact inv_submit gen raws hfresh ⟨hnd, hout, hpend⟩
  | setGlobal p =>
      have hg : FieldsPreserving (fun f =>
          if f.status = ProcessingStatus.IDLE
          then { f with settings := mergeSettings f.settings p } else f) := by
        intro f
        by_cases h : f.status = ProcessingStatus.IDLE <;> simp [h]
      refine ⟨?_, ?_, ?_⟩
      · have h1 := hnd
        rw [← map_ids_of_preserving hg c.files] at h1
        exact h1
      · exact outputInv_map_of_preserving hg hout
      · exact pendingInv_map_of_preserving hg hpend
  | setItem i p =>
      have hg : FieldsPreserving (fun f =>
          if f.id = i
          then { f with settings := mergeSettings f.settings p } else f) := by
        intro f
        by_cases h : f.id = i <;> simp [h]
      refine ⟨?_, ?_, ?_⟩
      · have h1 := hnd
        rw [← map_ids_of_preserving hg c.files] at h1
        exact h1
      · exact outputInv_map_of_preserving hg hout
      · exact pendingInv_map_of_preserving hg hpend
  | remove i hnp =>
      refine ⟨?_, ?_, ?_⟩
      · exact filter_ids_nodup _ hnd
      · exact outputInv_of_subset (fun x hx => (List.mem_filter.mp hx).1) hout
      · exact pendingInv_of_subset (fun x hx => (List.mem_filter.mp hx).1) hpend
  | probe i w h =>
      have hg : FieldsPreserving (fun f =>
          if f.id = i then { f with width := w, height := h } else f) := by
        intro f
        by_cases hc : f.id = i <;> simp [hc]
      refine ⟨?_, ?_, ?_⟩
      · have h1 := hnd
        rw [← map_ids_of_preserving hg c.files] at h1
        exact h1
      · exact outputInv_map_of_preserving hg hout
      · exact pendingInv_map_of_preserving hg hpend
  | start h =>
      exact inv_start ⟨hnd, hout, hpend⟩
  | resume f rest outcome h =>
      exact inv_resume f rest outcome h ⟨hnd, hout, hpend⟩

theorem inv_reach {m : Nat} {cfg : Config} (h : Reach m cfg) : Inv cfg := by
  unfold Reach at h
  induction h with
  | refl =>
      refine ⟨?_, ?_, ?_⟩
      · show (([] : List ImageFile).map (fun f => f.id)).Nodup
        simp
      · intro f hf
        cases hf
      · trivial
  | tail hsteps hstep ih => exact inv_step hstep ih

/-- C3: the batch-run algorithm. Over a duplicate-free file list with no
item in flight: the run takes its two `setFiles` steps per selected
item; every intermediate state has at most one PROCESSING item; at the
instant the k-th pair of steps begins, exactly the k-th item of the
IDLE/ERROR selection (in submission order) is the PROCESSING one; and
the final state updates exactly the items selected as IDLE or ERROR at
the start, each to COMPLETED with its output attached on success or to
ERROR on an exception, leaving all other items untouched. -/
theorem c3_batch_algorithm (res : String → Option String) (fs : List ImageFile)
    (hnd : (fs.map fun f => f.id).Nodup)
    (hnp : ∀ f ∈ fs, f.status ≠ ProcessingStatus.PROCESSING) :
    ((batchTrace res fs).length = 2 * (fs.filter eligible).length) ∧
    (∀ st ∈ batchTrace res fs,
      st.countP (fun f => decide (f.status = ProcessingStatus.PROCESSING)) ≤ 1) ∧
    (∀ (k : Nat) (st : List ImageFile) (t : ImageFile),
      (batchTrace res fs)[2 * k]? = some st →
      (fs.filter eligible)[k]? = some t →
      (∃ x ∈ st, x.id = t.id ∧ x.status = ProcessingStatus.PROCESSING) ∧
      (∀ x ∈ st, x.status = ProcessingStatus.PROCESSING → x.id = t.id)) ∧
    (processBatch res fs
      = fs.map (fun f =>
          if eligible f then outcomeUpdate (res f.id) f else f)) :=
  ⟨batchTraceLoop_length res _ fs,
    batchTraceLoop_atMostOne res _ fs hnd hnp,
    fun k st t hst htp =>
      batchTraceLoop_order res _ fs
        (fun g hg => List.mem_map.mpr ⟨g, (List.mem_filter.mp hg).1, rfl⟩)
        hnp k st t hst htp,
    processBatch_eq res fs hnd⟩

/-- Witness for C3 on a concrete two-item batch with succeeding
processing. -/
theorem c3_witness :
    ((batchTrace (fun _ => some "blob:ok") [itemA, itemB]).length
      = 2 * ([itemA, itemB].filter eligible).length) ∧
    (∀ st ∈ batchTrace (fun _ => some "blob:ok") [itemA, itemB],
      st.countP (fun f => decide (f.status = ProcessingStatus.PROCESSING)) ≤ 1) ∧
    (∀ (k : Nat) (st : List ImageFile) (t : ImageFile),
      (batchTrace (fun _ => some "blob:ok") [itemA, itemB])[2 * k]? = some st →
      ([itemA, itemB].filter eligible)[k]? = some t →
      (∃ x ∈ st, x.id = t.id ∧ x.status = ProcessingStatus.PROCESSING) ∧
      (∀ x ∈ st, x.status = ProcessingStatus.PROCESSING → x.id = t.id)) ∧
    (processBatch (fun _ => some "blob:ok") [itemA, itemB]
      = [itemA, itemB].map (fun f =>
          if eligible f
          then outcomeUpdate ((fun _ => some "blob:ok") f.id) f else f)) :=
  c3_batch_algorithm (fun _ => some "blob:ok") [itemA, itemB]
    (by decide) (by decide)

/-- C6: in every reachable configuration — under any interleaving of
submissions, global and per-item settings updates, removals, probe
resolutions and batch-run steps — an item holds an output
(`processedUrl`) exactly when its status is COMPLETED. -/
theorem c6_output_iff_completed (m : Nat) (cfg : Config) (h : Reach m cfg) :
    ∀ f ∈ cfg.files,
      f.processedUrl.isSome = true ↔ f.status = ProcessingStatus.COMPLETED :=
  (inv_reach h).2.1

/-- Witness for C6 at the configuration reached by one submission of a
concrete image, instantiated at the submitted item. -/
theorem c6_witness :
    (mkItem "idA" DEFAULT_SETTINGS rawPngA).processedUrl.isSome = true ↔
      (mkItem "idA" DEFAULT_SETTINGS rawPngA).status
        = ProcessingStatus.COMPLETED :=
  c6_output_iff_completed 10
    (Config.mk
      (handleFiles 10 (fun _ => "idA") [rawPngA] initConfig.toAppState) none)
    (Relation.ReflTransGen.single
      (Step.submit initConfig (fun _ => "idA") [rawPngA] (by decide)))
    (mkItem "idA" DEFAULT_SETTINGS rawPngA) (by decide)

/-- C7 evaluation at a failing input: `handleFiles` assigns ids drawn
from `Math.random().toString(36).substr(2, 9)`; when two draws yield the
same string, the two admitted items share an id, so identifiers are not
pairwise distinct. -/
theorem c7_random_ids_can_collide :
    ¬ (((handleFiles 10 (fun _ => "aaaaaaaaa") [rawPngA, rawPngB]
        { files := [], globalSettings := DEFAULT_SETTINGS }).files.map
          (fun f => f.id)).Nodup) := by decide

end Upscaler
